import Mathlib

/-!
Shallow embedding of the env-var resolution engine of a CLI tool
(`findValueFromContext`, `filterEnvBySource`, `fetchEnvelopeItems`,
`formatEnvelopeData`, `getEnvelopeEnv`, `translateFromMongoToEnvelope`,
`translateFromEnvelopeToMongo`).

Modelling decisions:
* JavaScript objects (string-keyed dictionaries, insertion ordered) are
  association lists `List (String × α)`.  Property write `{...acc, [k]: v}`
  keeps the position of an existing key and appends a new key at the end
  (`insertKey`); spread merge `{...a, ...b}` is `spreadMerge`.
* `Array.prototype.sort` with the comparator
  `(l, r) => l.key.toLowerCase() < r.key.toLowerCase() ? -1 : 1`
  is modelled as a stable sort by the non-strict order on lowercased keys:
  the engine's sort is stable and, for ties (where this comparator returns
  1), its binary insertion places a later element after an equal earlier
  one, so tied elements keep their original relative order.
  `List.insertionSort` with a reflexive total order has exactly this
  behaviour.
* `async`/`await` with a fallible API client is explicit `Except` passing.
  A thrown TypeError (e.g. calling `.filter` on a non-array) is the
  `Except.error` case.
* Truthiness of a JS string value is the test for non-emptiness.
-/

/-- A per-context value of one remote variable record:
`{ context, value }`. -/
structure ValueEntry where
  context : String
  value : String
deriving Repr, DecidableEq

/-- A raw remote variable record (Envelope shape):
`{ key, scopes, values }`. -/
structure VariableRecord where
  key : String
  scopes : List String
  values : List ValueEntry
deriving Repr, DecidableEq

/-- One entry of a flat env dictionary.  Legacy entries carry at least a
`sources` sequence; entries produced by `formatEnvelopeData` additionally
carry a resolved context, the record scopes and a value.  Absent JS fields
are `none`. -/
structure EnvEntry where
  context : Option String := none
  scopes : Option (List String) := none
  sources : List String := []
  value : Option String := none
deriving Repr, DecidableEq

/-- A JS object mapping variable names to entries, in insertion order. -/
abbrev Env := List (String × EnvEntry)

/-- The site object; `account_slug` and `id` may be `undefined`. -/
structure SiteInfo where
  account_slug : Option String := none
  id : Option String := none
deriving Repr, DecidableEq

/-- The api singleton: both endpoints may reject (`Except.error`). -/
structure ApiClient where
  getEnvVar : String → String → Option String → Except Unit VariableRecord
  getEnvVars : String → Option String → Except Unit (List VariableRecord)

/-- Result of `fetchEnvelopeItems`: the no-account early return is the
empty OBJECT `{}`, every other path returns an array. -/
inductive FetchResult where
  | emptyObject : FetchResult
  | items : List VariableRecord → FetchResult
deriving Repr, DecidableEq

/-- JS property write `{...m, [k]: v}`: replace in place if `k` exists,
else append at the end. -/
def insertKey (m : List (String × α)) (k : String) (v : α) :
    List (String × α) :=
  if m.any (fun p => p.1 == k) then
    m.map (fun p => if p.1 == k then (k, v) else p)
  else
    m ++ [(k, v)]

/-- JS property read `m[k]`. -/
def lookupEnv (m : List (String × α)) (k : String) : Option α :=
  (m.find? (fun p => p.1 == k)).map (fun p => p.2)

/-- JS object spread `{...a, ...b}`. -/
def spreadMerge (a b : List (String × α)) : List (String × α) :=
  b.foldl (fun acc p => insertKey acc p.1 p.2) a

/-- The keys of an env, in iteration order. -/
def envKeys (m : List (String × α)) : List String :=
  m.map (fun p => p.1)

/-- A JS object has no duplicate keys. -/
def keysNodup (m : List (String × α)) : Prop := (envKeys m).Nodup

instance (m : List (String × α)) : Decidable (keysNodup m) :=
  inferInstanceAs (Decidable ((envKeys m).Nodup))

/-- `s.toLowerCase()`, as the character list of the string with every
character lowercased. -/
def lowerChars (s : String) : List Char := s.data.map Char.toLower

/-- JS `<` on strings: lexicographic comparison of the character
sequences. -/
def charsLt : List Char → List Char → Bool
  | [], [] => false
  | [], _ :: _ => true
  | _ :: _, [] => false
  | a :: as, b :: bs => if a < b then true else if b < a then false else charsLt as bs

/-- Non-strict companion of `charsLt`. -/
def charsLe (x y : List Char) : Prop := charsLt y x = false

/-- First-less-or-equal on lowercased record keys: the stable-sort order
realised by the source's comparator
`(l, r) => l.key.toLowerCase() < r.key.toLowerCase() ? -1 : 1`. -/
def recLe (l r : VariableRecord) : Prop :=
  charsLe (lowerChars l.key) (lowerChars r.key)

instance : DecidableRel recLe := fun l r =>
  inferInstanceAs (Decidable (charsLt (lowerChars r.key) (lowerChars l.key) = false))

/-- The in-place `Array.prototype.sort` of the source, as a stable sort. -/
def jsSortRecords (l : List VariableRecord) : List VariableRecord :=
  l.insertionSort recLe

/-- `findValueFromContext`: first value whose context is the requested
context or the wildcard `all`. -/
def findValueFromContext (values : List ValueEntry) (context : String) :
    Option ValueEntry :=
  values.find? (fun val => val.context == context || val.context == "all")

/-- `filterEnvBySource`: entries whose first listed source is `source`. -/
def filterEnvBySource (env : Env) (source : String) : Env :=
  env.filter (fun p => p.2.sources.head? == some source)

/-- `fetchEnvelopeItems`.  With no account id it returns the empty object
`{}` without touching the api; a single-key fetch happens when `key` is
truthy (non-empty); any api rejection is swallowed into `[]`. -/
def fetchEnvelopeItems (accountId : Option String) (api : ApiClient)
    (key : String) (siteId : Option String) : FetchResult :=
  match accountId with
  | none => FetchResult.emptyObject
  | some acct =>
    if key ≠ "" then
      match api.getEnvVar acct key siteId with
      | Except.ok envelopeItem => FetchResult.items [envelopeItem]
      | Except.error _ => FetchResult.items []
    else
      match api.getEnvVars acct siteId with
      | Except.ok envelopeItems => FetchResult.items envelopeItems
      | Except.error _ => FetchResult.items []

/-- The `.reduce((acc, cur) => {...acc, [k]: v}, {})` pattern shared by
`formatEnvelopeData` and `translateFromEnvelopeToMongo`: fold the emitted
key/value pairs into an object. -/
def reduceAccum (g : α → Option (String × β)) (l : List α) :
    List (String × β) :=
  l.foldl
    (fun acc x =>
      match g x with
      | some (k, v) => insertKey acc k v
      | none => acc)
    []

/-- The entry `formatEnvelopeData` emits for one record, given the value
entry resolved for the requested context. -/
def formatEntry (source : String) (r : VariableRecord) (v : ValueEntry) :
    EnvEntry :=
  { context := some v.context
    scopes := some r.scopes
    sources := [source]
    value := some v.value }

/-- The body of `formatEnvelopeData`'s reduce: resolve the record's value
for the requested context and emit the key/entry pair.  (After the context
filter the resolution always succeeds; on a record that slipped past it the
source would throw while destructuring `undefined`.) -/
def fmtEmit (context : String) (source : String) (cur : VariableRecord) :
    Option (String × EnvEntry) :=
  (findValueFromContext cur.values context).map
    (fun v => (cur.key, formatEntry source cur v))

/-- `formatEnvelopeData` on an actual array: filter by context, filter by
scope, sort case-insensitively (stable), then reduce into an object. -/
def formatEnvelopeData (context : String) (envelopeItems : List VariableRecord)
    (scope : String) (source : String) : Env :=
  reduceAccum (fmtEmit context source)
    (jsSortRecords
      (((envelopeItems.filter
            (fun r => (findValueFromContext r.values context).isSome)).filter
          (fun r => scope == "any" || r.scopes.contains scope))))

/-- `formatEnvelopeData` as called on a fetch result: on the empty object
`{}` the very first `.filter` call raises a TypeError (not a function),
modelled as `Except.error ()`. -/
def formatEnvelopeDataJS (context : String) (fetched : FetchResult)
    (scope : String) (source : String) : Except Unit Env :=
  match fetched with
  | FetchResult.emptyObject => Except.error ()
  | FetchResult.items l => Except.ok (formatEnvelopeData context l scope source)

/-- `getEnvelopeEnv`: fetch account- and site-level records, format them,
partition the local env by source, and spread-merge in ascending
precedence.  A TypeError raised while formatting propagates. -/
def getEnvelopeEnv (api : ApiClient) (context : String) (env : Env)
    (key : String) (scope : String) (siteInfo : SiteInfo) : Except Unit Env :=
  let accountId := siteInfo.account_slug
  let siteId := siteInfo.id
  let accountEnvelopeItems := fetchEnvelopeItems accountId api key none
  let siteEnvelopeItems := fetchEnvelopeItems accountId api key siteId
  match formatEnvelopeDataJS context accountEnvelopeItems scope "account",
      formatEnvelopeDataJS context siteEnvelopeItems scope "ui" with
  | Except.error e, _ => Except.error e
  | Except.ok _, Except.error e => Except.error e
  | Except.ok accountEnv, Except.ok siteEnv =>
    let generalEnv := filterEnvBySource env "general"
    let addonsEnv := filterEnvBySource env "addons"
    let configFileEnv := filterEnvBySource env "configFile"
    let includeConfigEnvVars := ["any", "builds", "post_processing"].contains scope
    Except.ok
      (spreadMerge
        (spreadMerge
          (spreadMerge
            (spreadMerge generalEnv accountEnv)
            (if includeConfigEnvVars then addonsEnv else []))
          siteEnv)
        (if includeConfigEnvVars then configFileEnv else []))

/-- `translateFromMongoToEnvelope`: each flat pair becomes a record with
all four scopes and a single `all`-context value. -/
def translateFromMongoToEnvelope (env : List (String × String)) :
    List VariableRecord :=
  env.map
    (fun p =>
      { key := p.1
        scopes := ["builds", "functions", "runtime", "post_processing"]
        values := [{ context := "all", value := p.2 }] })

/-- The body of `translateFromEnvelopeToMongo`'s reduce: find the value
entry for context `dev` or `all`; emit the pair only when it exists and its
value is truthy. -/
def mongoEmit (cur : VariableRecord) : Option (String × String) :=
  match cur.values.find?
      (fun val => val.context == "dev" || val.context == "all") with
  | some envVar => if envVar.value ≠ "" then some (cur.key, envVar.value) else none
  | none => none

/-- `translateFromEnvelopeToMongo`, with the state of the argument array
after the call as first component: `envVars.sort(...)` sorts the caller's
array IN PLACE, so the call returns the reduced object but leaves the
argument reordered. -/
def translateFromEnvelopeToMongoM (envVars : List VariableRecord) :
    List VariableRecord × List (String × String) :=
  let sorted := jsSortRecords envVars
  (sorted, reduceAccum mongoEmit sorted)

/-- The return value of `translateFromEnvelopeToMongo`. -/
def translateFromEnvelopeToMongo (envVars : List VariableRecord) :
    List (String × String) :=
  (translateFromEnvelopeToMongoM envVars).2

/-- `formatEnvelopeData`, with the state of the argument array after the
call as first component: its `.sort` runs on the fresh array produced by
`.filter`, so the argument is untouched. -/
def formatEnvelopeDataM (context : String) (envelopeItems : List VariableRecord)
    (scope : String) (source : String) : List VariableRecord × Env :=
  (envelopeItems, formatEnvelopeData context envelopeItems scope source)

/-- `filterEnvBySource`, with the state of the argument env after the call
as first component: `Object.entries`/`filter`/`fromEntries` build fresh
structures. -/
def filterEnvBySourceM (env : Env) (source : String) : Env × Env :=
  (env, filterEnvBySource env source)

/-- The five source tags of the flat env enum
(`general`, `account`, `addons`, `ui`, `configFile`). -/
def SOURCE_TAGS : List String :=
  ["general", "account", "addons", "ui", "configFile"]

/-- The record list carried by a fetch result (`[]` for the bare object). -/
def itemsOf : FetchResult → List VariableRecord
  | FetchResult.emptyObject => []
  | FetchResult.items l => l

/-- The scopes for which config-file/addons variables are included. -/
def configScopes : List String := ["any", "builds", "post_processing"]

/-! Concrete inputs used by witnesses and counterexamples. -/

/-- Two records whose keys sort case-insensitively as Apple, banana. -/
def demoItems : List VariableRecord :=
  [{ key := "banana", scopes := ["builds"], values := [{ context := "all", value := "b" }] },
   { key := "Apple", scopes := ["builds"], values := [{ context := "dev", value := "a" }] }]

/-- A record with key `b`, out of order in front of `recA`. -/
def recB : VariableRecord :=
  { key := "b", scopes := ["builds"], values := [{ context := "all", value := "1" }] }

/-- A record with key `a`. -/
def recA : VariableRecord :=
  { key := "a", scopes := ["builds"], values := [{ context := "all", value := "2" }] }

/-- A flat env with one single-source entry per source tag. -/
def env5 : Env :=
  [("V1", { sources := ["general"] }),
   ("V2", { sources := ["account"] }),
   ("V3", { sources := ["addons"] }),
   ("V4", { sources := ["ui"] }),
   ("V5", { sources := ["configFile"] })]

/-- An api whose both endpoints reject. -/
def apiFail : ApiClient :=
  { getEnvVar := fun _ _ _ => Except.error ()
    getEnvVars := fun _ _ => Except.error () }

/-- An api returning `A:2` at account level and `A:3` at site level. -/
def apiDemo : ApiClient :=
  { getEnvVar := fun _ _ _ => Except.error ()
    getEnvVars := fun _ siteId =>
      Except.ok
        (match siteId with
         | none =>
           [{ key := "A", scopes := ["builds", "functions", "runtime", "post_processing"],
              values := [{ context := "all", value := "2" }] }]
         | some _ =>
           [{ key := "A", scopes := ["builds", "functions", "runtime", "post_processing"],
              values := [{ context := "all", value := "3" }] }]) }

/-- A flat env carrying `A:1` from the general source. -/
def envDemo : Env := [("A", { sources := ["general"], value := some "1" })]

/-- A flat env with general, addons and configFile entries. -/
def envDemo10 : Env :=
  [("X", { sources := ["general"], value := some "x" }),
   ("Y", { sources := ["addons"], value := some "y" }),
   ("Z", { sources := ["configFile"], value := some "z" })]

/-- A site with both identifiers. -/
def siteDemo : SiteInfo := { account_slug := some "acct", id := some "site" }

/-- A site with no account identifier. -/
def siteNoAcct : SiteInfo := { account_slug := none, id := some "site" }

/-- The flat env of the spec round-trip example. -/
def mongoDemo : List (String × String) := [("FOO", "bar")]

/-! ### Order lemmas for the lexicographic comparison -/

theorem charsLt_asymm : ∀ {x y : List Char}, charsLt x y = true → charsLt y x = false
  | [], [] => by simp [charsLt]
  | [], _ :: _ => by simp [charsLt]
  | _ :: _, [] => by simp [charsLt]
  | a :: as, b :: bs => by
    intro h
    rcases lt_trichotomy a b with hab | hab | hab
    · simp [charsLt, hab, asymm hab]
    · subst hab
      have h' : charsLt as bs = true := by simpa [charsLt] using h
      simpa [charsLt] using charsLt_asymm h'
    · simp [charsLt, hab, asymm hab] at h

theorem charsLt_connex :
    ∀ {x y : List Char}, charsLt x y = false → charsLt y x = false → x = y
  | [], [] => by simp
  | [], _ :: _ => by simp [charsLt]
  | _ :: _, [] => by simp [charsLt]
  | a :: as, b :: bs => by
    intro h1 h2
    rcases lt_trichotomy a b with hab | hab | hab
    · simp [charsLt, hab] at h1
    · subst hab
      have h1' : charsLt as bs = false := by simpa [charsLt] using h1
      have h2' : charsLt bs as = false := by simpa [charsLt] using h2
      rw [charsLt_connex h1' h2']
    · simp [charsLt, hab, asymm hab] at h2

theorem charsLt_trans :
    ∀ {x y z : List Char}, charsLt x y = true → charsLt y z = true → charsLt x z = true
  | [], [], _ => by simp [charsLt]
  | [], _ :: _, [] => by intro _ h2; simp [charsLt] at h2
  | [], _ :: _, _ :: _ => by simp [charsLt]
  | _ :: _, [], _ => by simp [charsLt]
  | _ :: _, _ :: _, [] => by intro _ h2; simp [charsLt] at h2
  | a :: as, b :: bs, c :: cs => by
    intro h1 h2
    rcases lt_trichotomy a b with hab | hab | hab
    · rcases lt_trichotomy b c with hbc | hbc | hbc
      · simp [charsLt, lt_trans hab hbc]
      · subst hbc
        simp [charsLt, hab]
      · simp [charsLt, asymm hbc, hbc] at h2
    · subst hab
      rcases lt_trichotomy a c with hac | hac | hac
      · simp [charsLt, hac]
      · subst hac
        have h1' : charsLt as bs = true := by simpa [charsLt] using h1
        have h2' : charsLt bs cs = true := by simpa [charsLt] using h2
        simpa [charsLt] using charsLt_trans h1' h2'
      · simp [charsLt, asymm hac, hac] at h2
    · simp [charsLt, asymm hab, hab] at h1

instance : IsTotal VariableRecord recLe :=
  ⟨by
    intro a b
    unfold recLe charsLe
    cases h : charsLt (lowerChars b.key) (lowerChars a.key)
    · exact Or.inl rfl
    · exact Or.inr (charsLt_asymm h)⟩

instance : IsTrans VariableRecord recLe :=
  ⟨by
    intro a b c hab hbc
    unfold recLe charsLe at *
    cases hca : charsLt (lowerChars c.key) (lowerChars a.key)
    · rfl
    · cases hbc' : charsLt (lowerChars b.key) (lowerChars c.key)
      · have : lowerChars b.key = lowerChars c.key := charsLt_connex hbc' hbc
        rw [← this] at hca
        exact absurd hca (by simp [hab])
      · have := charsLt_trans hbc' hca
        exact absurd this (by simp [hab])⟩

theorem jsSortRecords_perm (l : List VariableRecord) : (jsSortRecords l).Perm l :=
  List.perm_insertionSort recLe l

theorem jsSortRecords_sorted (l : List VariableRecord) :
    List.Sorted recLe (jsSortRecords l) :=
  List.sorted_insertionSort recLe l

theorem mem_jsSortRecords {l : List VariableRecord} {r : VariableRecord} :
    r ∈ jsSortRecords l ↔ r ∈ l :=
  List.mem_insertionSort recLe

/-! ### JS-object (association list) lemmas -/

theorem insertKey_of_not_mem {m : List (String × α)} {k : String} (v : α)
    (h : k ∉ envKeys m) : insertKey m k v = m ++ [(k, v)] := by
  have : m.any (fun p => p.1 == k) = false := by
    simp only [List.any_eq_false]
    intro p hp
    simp only [beq_iff_eq]
    intro hk
    exact h (by simp [envKeys]; exact ⟨p.2, hk ▸ hp⟩)
  simp [insertKey, this]

theorem lookupEnv_nil (k : String) : lookupEnv ([] : List (String × α)) k = none := rfl

theorem envKeys_cons (p : String × α) (m : List (String × α)) :
    envKeys (p :: m) = p.1 :: envKeys m := rfl

theorem mem_envKeys_of_mem {m : List (String × α)} {p : String × α}
    (h : p ∈ m) : p.1 ∈ envKeys m :=
  List.mem_map.mpr ⟨p, h, rfl⟩

theorem mem_envKeys {m : List (String × α)} {k : String} :
    k ∈ envKeys m ↔ ∃ v, (k, v) ∈ m := by
  constructor
  · intro h
    obtain ⟨p, hp, hk⟩ := List.mem_map.mp h
    exact ⟨p.2, by rwa [show (k, p.2) = p by cases p; simp_all]⟩
  · rintro ⟨v, hv⟩
    exact mem_envKeys_of_mem hv

theorem keysNodup_cons_iff {p : String × α} {m : List (String × α)} :
    keysNodup (p :: m) ↔ p.1 ∉ envKeys m ∧ keysNodup m := by
  simp [keysNodup, envKeys_cons, List.nodup_cons]

theorem lookupEnv_cons (p : String × α) (m : List (String × α)) (k : String) :
    lookupEnv (p :: m) k = if p.1 = k then some p.2 else lookupEnv m k := by
  by_cases h : p.1 = k
  · simp [lookupEnv, List.find?_cons, h]
  · have hbe : (p.1 == k) = false := by simp [h]
    simp [lookupEnv, List.find?_cons, hbe, h]

theorem lookupEnv_eq_none_iff {m : List (String × α)} {k : String} :
    lookupEnv m k = none ↔ k ∉ envKeys m := by
  simp only [lookupEnv, Option.map_eq_none', List.find?_eq_none, envKeys, List.mem_map,
    beq_iff_eq]
  constructor
  · rintro h ⟨p, hp, hk⟩
    exact h p hp hk
  · intro h p hp hk
    exact h ⟨p, hp, hk⟩

theorem lookupEnv_mem {m : List (String × α)} {k : String} {v : α}
    (h : lookupEnv m k = some v) : (k, v) ∈ m := by
  simp only [lookupEnv, Option.map_eq_some'] at h
  obtain ⟨p, hp, hv⟩ := h
  have hmem := List.mem_of_find?_eq_some hp
  have hk : p.1 = k := by simpa [beq_iff_eq] using List.find?_some hp
  have : p = (k, v) := by
    cases p
    simp_all
  rwa [this] at hmem

theorem lookupEnv_eq_some_iff {m : List (String × α)} (hm : keysNodup m)
    {k : String} {v : α} : lookupEnv m k = some v ↔ (k, v) ∈ m := by
  constructor
  · exact lookupEnv_mem
  · intro hmem
    induction m with
    | nil => cases hmem
    | cons p t ih =>
      obtain ⟨hp1, hpt⟩ := keysNodup_cons_iff.mp hm
      rcases List.mem_cons.mp hmem with hp | ht
      · rw [← hp, lookupEnv_cons]
        simp
      · have hk1 : p.1 ≠ k := by
          intro hk
          exact hp1 (hk ▸ mem_envKeys.mpr ⟨v, ht⟩)
        rw [lookupEnv_cons, if_neg hk1]
        exact ih hpt ht

theorem insertKey_any_of_mem {m : List (String × α)} {k : String}
    (h : k ∈ envKeys m) : (m.any fun p => p.1 == k) = true := by
  obtain ⟨v, hv⟩ := mem_envKeys.mp h
  exact List.any_eq_true.mpr ⟨(k, v), hv, by simp⟩

theorem insertKey_of_mem {m : List (String × α)} {k : String} (v : α)
    (h : k ∈ envKeys m) :
    insertKey m k v = m.map (fun p => if p.1 == k then (k, v) else p) := by
  simp [insertKey, insertKey_any_of_mem h]

theorem envKeys_insertKey_of_mem {m : List (String × α)} {k : String} (v : α)
    (h : k ∈ envKeys m) : envKeys (insertKey m k v) = envKeys m := by
  rw [insertKey_of_mem v h]
  simp only [envKeys, List.map_map]
  apply List.map_congr_left
  intro p hp
  by_cases hk : p.1 = k
  · simp [Function.comp, hk]
  · simp [Function.comp, hk]

theorem lookupEnv_map_update (m : List (String × α)) (k : String) (v : α)
    (q : String) :
    lookupEnv (m.map (fun p => if p.1 == k then (k, v) else p)) q =
      if q = k then (lookupEnv m k).map (fun _ => v) else lookupEnv m q := by
  induction m with
  | nil => simp [lookupEnv_nil]
  | cons p t ih =>
    simp only [List.map_cons, lookupEnv_cons]
    by_cases hpk : p.1 = k
    · have hb : (p.1 == k) = true := by simp [hpk]
      rw [if_pos hb, ih]
      by_cases hqk : q = k
      · subst hqk
        simp [hpk]
      · have hkq : ¬ k = q := fun h => hqk h.symm
        have hpq : ¬ p.1 = q := by rw [hpk]; exact hkq
        simp [hqk, hkq, hpq]
    · have hb : (p.1 == k) = false := by simp [hpk]
      rw [if_neg (show ¬ ((p.1 == k) = true) by simp [hb]), ih]
      by_cases hqk : q = k
      · have hpq : ¬ p.1 = q := by rw [hqk]; exact hpk
        simp [hqk, hpq, hpk]
      · by_cases hpq : p.1 = q
        · simp [hqk, hpq]
        · simp [hqk, hpq]

theorem lookupEnv_insertKey (m : List (String × α)) (k : String) (v : α)
    (q : String) :
    lookupEnv (insertKey m k v) q = if q = k then some v else lookupEnv m q := by
  by_cases hmem : k ∈ envKeys m
  · rw [insertKey_of_mem v hmem, lookupEnv_map_update]
    by_cases hqk : q = k
    · cases hl : lookupEnv m k with
      | none => exact absurd hmem (by simpa using lookupEnv_eq_none_iff.mp hl)
      | some w => simp [hqk, hl]
    · simp [hqk]
  · rw [insertKey_of_not_mem v hmem]
    by_cases hqk : q = k
    · subst hqk
      have hnone : m.find? (fun p => p.1 == q) = none := by
        have := lookupEnv_eq_none_iff.mpr hmem
        simpa [lookupEnv, Option.map_eq_none'] using this
      simp [lookupEnv, List.find?_append, hnone, List.find?_cons]
    · have hkq : (k == q) = false := beq_eq_false_iff_ne.mpr (fun h => hqk h.symm)
      simp [lookupEnv, List.find?_append, List.find?_cons, hkq, hqk]

theorem mem_envKeys_insertKey {m : List (String × α)} {k : String} {v : α}
    {q : String} :
    q ∈ envKeys (insertKey m k v) ↔ q ∈ envKeys m ∨ q = k := by
  by_cases hmem : k ∈ envKeys m
  · rw [envKeys_insertKey_of_mem v hmem]
    constructor
    · exact Or.inl
    · rintro (h | rfl)
      exacts [h, hmem]
  · rw [insertKey_of_not_mem v hmem]
    simp [envKeys]

theorem keysNodup_insertKey (k : String) (v : α) {m : List (String × α)}
    (h : keysNodup m) : keysNodup (insertKey m k v) := by
  by_cases hmem : k ∈ envKeys m
  · rwa [keysNodup, envKeys_insertKey_of_mem v hmem]
  · rw [insertKey_of_not_mem v hmem]
    have : envKeys (m ++ [(k, v)]) = envKeys m ++ [k] := by simp [envKeys]
    rw [keysNodup, this]
    simp only [List.nodup_append, List.nodup_cons, List.not_mem_nil, not_false_iff,
      List.nodup_nil, and_true, true_and]
    constructor
    · exact h
    · intro x hx
      simp only [List.mem_singleton]
      intro hxk
      exact hmem (hxk ▸ hx)

theorem spreadMerge_nil (a : List (String × α)) : spreadMerge a [] = a := rfl

theorem spreadMerge_cons (a : List (String × α)) (p : String × α)
    (b : List (String × α)) :
    spreadMerge a (p :: b) = spreadMerge (insertKey a p.1 p.2) b := rfl

theorem lookupEnv_spreadMerge (a b : List (String × α)) (k : String) :
    keysNodup b →
    lookupEnv (spreadMerge a b) k = (lookupEnv b k).or (lookupEnv a k) := by
  induction b generalizing a with
  | nil =>
    intro _
    simp [spreadMerge_nil, lookupEnv_nil, Option.none_or]
  | cons p t ih =>
    intro hb
    obtain ⟨hp1, hpt⟩ := keysNodup_cons_iff.mp hb
    rw [spreadMerge_cons, ih _ hpt, lookupEnv_insertKey, lookupEnv_cons]
    by_cases hk : p.1 = k
    · have ht : lookupEnv t k = none :=
        lookupEnv_eq_none_iff.mpr (fun hx => hp1 (hk ▸ hx))
      simp [hk, ht, Option.none_or, Option.or]
    · have hkp : k ≠ p.1 := fun h => hk h.symm
      simp [hk, hkp]

theorem mem_envKeys_spreadMerge (a b : List (String × α)) (k : String) :
    k ∈ envKeys (spreadMerge a b) ↔ k ∈ envKeys a ∨ k ∈ envKeys b := by
  induction b generalizing a with
  | nil => simp [spreadMerge_nil, envKeys]
  | cons p t ih =>
    rw [spreadMerge_cons, ih, envKeys_cons]
    simp only [mem_envKeys_insertKey, List.mem_cons]
    tauto

theorem keysNodup_spreadMerge {a : List (String × α)} (b : List (String × α))
    (h : keysNodup a) : keysNodup (spreadMerge a b) := by
  induction b generalizing a with
  | nil => exact h
  | cons p t ih => exact ih (keysNodup_insertKey p.1 p.2 h)

/-! ### Reduce-into-object lemmas -/

theorem mem_insertKey {m : List (String × α)} {k : String} {v : α}
    {q : String × α} (h : q ∈ insertKey m k v) : q ∈ m ∨ q = (k, v) := by
  by_cases hmem : k ∈ envKeys m
  · rw [insertKey_of_mem v hmem] at h
    obtain ⟨p, hp, hfp⟩ := List.mem_map.mp h
    by_cases hpk : p.1 = k
    · right
      rw [← hfp]
      simp [hpk]
    · left
      rw [← hfp]
      simpa [hpk] using hp
  · rw [insertKey_of_not_mem v hmem] at h
    rcases List.mem_append.mp h with h1 | h1
    · exact Or.inl h1
    · exact Or.inr (List.mem_singleton.mp h1)

theorem foldl_insertKey_eq_append (g : α → Option (String × β)) (l : List α) :
    ∀ init : List (String × β),
      keysNodup (l.filterMap g) →
      (∀ k, k ∈ envKeys (l.filterMap g) → k ∉ envKeys init) →
      l.foldl
        (fun acc x =>
          match g x with
          | some (k, v) => insertKey acc k v
          | none => acc) init = init ++ l.filterMap g := by
  induction l with
  | nil =>
    intro init _ _
    simp
  | cons x t ih =>
    intro init hnd hdisj
    cases hg : g x with
    | none =>
      have hfm : List.filterMap g (x :: t) = List.filterMap g t := by
        simp [List.filterMap_cons, hg]
      rw [hfm] at hnd hdisj ⊢
      simp only [List.foldl_cons, hg]
      exact ih init hnd hdisj
    | some p =>
      obtain ⟨k, v⟩ := p
      have hfm : List.filterMap g (x :: t) = (k, v) :: List.filterMap g t := by
        simp [List.filterMap_cons, hg]
      rw [hfm] at hnd hdisj ⊢
      obtain ⟨hknot, hnd'⟩ := keysNodup_cons_iff.mp hnd
      have hkinit : k ∉ envKeys init := hdisj k (by simp [envKeys_cons])
      simp only [List.foldl_cons, hg]
      rw [insertKey_of_not_mem v hkinit]
      rw [ih (init ++ [(k, v)]) hnd' ?hdj]
      · simp
      case hdj =>
        intro q hq
        have hq1 : q ∉ envKeys init :=
          hdisj q (by rw [envKeys_cons]; exact List.mem_cons_of_mem _ hq)
        have hq2 : q ≠ k := fun h => hknot (h ▸ hq)
        intro hqin
        have : envKeys (init ++ [(k, v)]) = envKeys init ++ [k] := by
          simp [envKeys]
        rw [this] at hqin
        rcases List.mem_append.mp hqin with h1 | h1
        · exact hq1 h1
        · exact hq2 (List.mem_singleton.mp h1)

theorem reduceAccum_eq_filterMap (g : α → Option (String × β)) (l : List α)
    (hnd : keysNodup (l.filterMap g)) : reduceAccum g l = l.filterMap g := by
  have h := foldl_insertKey_eq_append g l [] hnd (by intro k _ hk; cases hk)
  simpa [reduceAccum] using h

theorem keysNodup_reduceAccum (g : α → Option (String × β)) (l : List α) :
    keysNodup (reduceAccum g l) := by
  suffices h : ∀ init : List (String × β), keysNodup init →
      keysNodup (l.foldl
        (fun acc x =>
          match g x with
          | some (k, v) => insertKey acc k v
          | none => acc) init) by
    exact h [] (by simp [keysNodup, envKeys])
  induction l with
  | nil =>
    intro init hi
    simpa using hi
  | cons x t ih =>
    intro init hi
    simp only [List.foldl_cons]
    cases hg : g x with
    | none => exact ih init hi
    | some p =>
      obtain ⟨k, v⟩ := p
      exact ih _ (keysNodup_insertKey k v hi)

theorem reduceAccum_forall (g : α → Option (String × β)) (P : String × β → Prop)
    (hP : ∀ x p, g x = some p → P p) (l : List α) :
    ∀ q ∈ reduceAccum g l, P q := by
  suffices h : ∀ init : List (String × β), (∀ q ∈ init, P q) →
      ∀ q ∈ l.foldl
        (fun acc x =>
          match g x with
          | some (k, v) => insertKey acc k v
          | none => acc) init, P q by
    exact h [] (by intro q hq; cases hq)
  induction l with
  | nil =>
    intro init hi
    simpa using hi
  | cons x t ih =>
    intro init hi
    simp only [List.foldl_cons]
    cases hg : g x with
    | none => exact ih init hi
    | some p =>
      obtain ⟨k, v⟩ := p
      refine ih _ ?_
      intro q hq
      rcases mem_insertKey hq with h1 | h1
      · exact hi q h1
      · exact h1 ▸ hP x (k, v) hg

/-! ### Stability of the modelled sort -/

theorem filter_orderedInsert_pos (r : α → α → Prop) [DecidableRel r]
    (p : α → Bool) (a : α) (hpa : p a = true) :
    ∀ l : List α, (∀ b ∈ l, p b = true → r a b) →
      (List.orderedInsert r a l).filter p = a :: l.filter p
  | [] => by
    intro _
    simp [List.orderedInsert, hpa]
  | b :: t => by
    intro h
    by_cases hab : r a b
    · simp [List.orderedInsert, hab, List.filter_cons, hpa]
    · have hpb : p b = false := by
        cases hb : p b
        · rfl
        · exact absurd (h b (by simp) hb) hab
      simp only [List.orderedInsert, if_neg hab, List.filter_cons, hpb]
      rw [filter_orderedInsert_pos r p a hpa t
        (fun c hc hpc => h c (List.mem_cons_of_mem _ hc) hpc)]
      simp

theorem filter_orderedInsert_neg (r : α → α → Prop) [DecidableRel r]
    (p : α → Bool) (a : α) (hpa : p a = false) :
    ∀ l : List α, (List.orderedInsert r a l).filter p = l.filter p
  | [] => by simp [List.orderedInsert, hpa]
  | b :: t => by
    by_cases hab : r a b
    · simp [List.orderedInsert, hab, List.filter_cons, hpa]
    · simp [List.orderedInsert, if_neg hab, List.filter_cons,
        filter_orderedInsert_neg r p a hpa t]

theorem filter_insertionSort (r : α → α → Prop) [DecidableRel r] (p : α → Bool)
    (h : ∀ a b, p a = true → p b = true → r a b) :
    ∀ l : List α, (List.insertionSort r l).filter p = l.filter p
  | [] => rfl
  | a :: t => by
    simp only [List.insertionSort]
    cases hpa : p a
    · rw [filter_orderedInsert_neg r p a hpa, filter_insertionSort r p h t]
      simp [List.filter_cons, hpa]
    · rw [filter_orderedInsert_pos r p a hpa _ (fun b _ hpb => h a b hpa hpb),
        filter_insertionSort r p h t]
      simp [List.filter_cons, hpa]

/-! ### Keys of emitted pairs -/

theorem keys_filterMap_sublist (g : α → Option (String × β)) (keyf : α → String)
    (hg : ∀ x p, g x = some p → p.1 = keyf x) :
    ∀ l : List α, (envKeys (l.filterMap g)).Sublist (l.map keyf)
  | [] => by simp [envKeys]
  | x :: t => by
    cases hgx : g x with
    | none =>
      simp only [List.filterMap_cons, hgx, List.map_cons]
      exact (keys_filterMap_sublist g keyf hg t).cons _
    | some p =>
      simp only [List.filterMap_cons, hgx, List.map_cons, envKeys_cons]
      rw [hg x p hgx]
      exact (keys_filterMap_sublist g keyf hg t).cons₂ _

theorem keys_filterMap_eq (g : α → Option (String × β)) (keyf : α → String) :
    ∀ l : List α, (∀ x ∈ l, ∃ p, g x = some p ∧ p.1 = keyf x) →
      envKeys (l.filterMap g) = l.map keyf
  | [] => by
    intro _
    simp [envKeys]
  | x :: t => by
    intro h
    obtain ⟨p, hgx, hkey⟩ := h x (by simp)
    simp only [List.filterMap_cons, hgx, List.map_cons, envKeys_cons]
    rw [hkey, keys_filterMap_eq g keyf t (fun y hy => h y (List.mem_cons_of_mem _ hy))]

theorem filterMap_congr_some (g : α → Option α) :
    ∀ l : List α, (∀ x ∈ l, g x = some x) → l.filterMap g = l
  | [] => by
    intro _
    rfl
  | x :: t => by
    intro h
    simp only [List.filterMap_cons, h x (by simp)]
    rw [filterMap_congr_some g t (fun y hy => h y (List.mem_cons_of_mem _ hy))]

theorem pairwise_keys_of_sorted {l : List VariableRecord}
    (h : List.Sorted recLe l) :
    (l.map VariableRecord.key).Pairwise
      (fun a b => charsLe (lowerChars a) (lowerChars b)) :=
  List.Pairwise.map _ (fun _ _ hab => hab) h

/-! ### Characterisation of formatEnvelopeData -/

theorem fmtEmit_key (context source : String) (x : VariableRecord)
    (p : String × EnvEntry) (h : fmtEmit context source x = some p) :
    p.1 = x.key := by
  simp only [fmtEmit, Option.map_eq_some'] at h
  obtain ⟨v, _, hp⟩ := h
  rw [← hp]

theorem formatEnvelopeData_eq (context scope source : String)
    (items : List VariableRecord)
    (hk : (items.map VariableRecord.key).Nodup) :
    formatEnvelopeData context items scope source =
      (jsSortRecords
        ((items.filter (fun r => (findValueFromContext r.values context).isSome)).filter
          (fun r => scope == "any" || r.scopes.contains scope))).filterMap
        (fmtEmit context source) := by
  apply reduceAccum_eq_filterMap
  have h1 := keys_filterMap_sublist (fmtEmit context source) VariableRecord.key
    (fmtEmit_key context source)
    (jsSortRecords
      ((items.filter (fun r => (findValueFromContext r.values context).isSome)).filter
        (fun r => scope == "any" || r.scopes.contains scope)))
  have h2 :
      ((jsSortRecords
        ((items.filter (fun r => (findValueFromContext r.values context).isSome)).filter
          (fun r => scope == "any" || r.scopes.contains scope))).map
            VariableRecord.key).Perm
      (((items.filter (fun r => (findValueFromContext r.values context).isSome)).filter
          (fun r => scope == "any" || r.scopes.contains scope)).map VariableRecord.key) :=
    (jsSortRecords_perm _).map _
  have h3 :
      ((((items.filter (fun r => (findValueFromContext r.values context).isSome)).filter
          (fun r => scope == "any" || r.scopes.contains scope)).map
            VariableRecord.key)).Sublist (items.map VariableRecord.key) :=
    ((List.filter_sublist _).trans (List.filter_sublist _)).map _
  exact List.Sublist.nodup h1 (h2.symm.nodup (h3.nodup hk))

theorem formatEnvelopeData_keys (context scope source : String)
    (items : List VariableRecord)
    (hk : (items.map VariableRecord.key).Nodup) :
    envKeys (formatEnvelopeData context items scope source) =
      (jsSortRecords
        ((items.filter (fun r => (findValueFromContext r.values context).isSome)).filter
          (fun r => scope == "any" || r.scopes.contains scope))).map
            VariableRecord.key := by
  rw [formatEnvelopeData_eq context scope source items hk]
  apply keys_filterMap_eq
  intro r hr
  have hr2 := List.mem_filter.mp (mem_jsSortRecords.mp hr)
  have hr3 := List.mem_filter.mp hr2.1
  cases hfv : findValueFromContext r.values context with
  | none => rw [hfv] at hr3; cases hr3.2
  | some v =>
    exact ⟨(r.key, formatEntry source r v), by simp [fmtEmit, hfv], rfl⟩

theorem keysNodup_formatEnvelopeData (context scope source : String)
    (items : List VariableRecord) :
    keysNodup (formatEnvelopeData context items scope source) :=
  keysNodup_reduceAccum _ _

theorem formatEnvelopeData_mem_iff (context scope source : String)
    (items : List VariableRecord)
    (hk : (items.map VariableRecord.key).Nodup) (k : String) (e : EnvEntry) :
    lookupEnv (formatEnvelopeData context items scope source) k = some e ↔
      ∃ r ∈ items, r.key = k ∧
        (scope = "any" ∨ r.scopes.contains scope = true) ∧
        ∃ v, findValueFromContext r.values context = some v ∧
          e = formatEntry source r v := by
  rw [lookupEnv_eq_some_iff (keysNodup_formatEnvelopeData context scope source items)]
  rw [formatEnvelopeData_eq context scope source items hk]
  constructor
  · intro hmem
    obtain ⟨r, hr, hemit⟩ := List.mem_filterMap.mp hmem
    obtain ⟨v, hv, hpair⟩ := Option.map_eq_some'.mp hemit
    have hr2 := List.mem_filter.mp (mem_jsSortRecords.mp hr)
    have hr3 := List.mem_filter.mp hr2.1
    rw [Prod.mk.injEq] at hpair
    refine ⟨r, hr3.1, hpair.1, ?_, v, hv, hpair.2.symm⟩
    rcases Bool.or_eq_true_iff.mp hr2.2 with h | h
    · exact Or.inl (by simpa using h)
    · exact Or.inr h
  · rintro ⟨r, hr, hkey, hsc, v, hv, he⟩
    apply List.mem_filterMap.mpr
    refine ⟨r, ?_, ?_⟩
    · apply mem_jsSortRecords.mpr
      apply List.mem_filter.mpr
      refine ⟨List.mem_filter.mpr ⟨hr, ?_⟩, ?_⟩
      · rw [hv]
        rfl
      · rcases hsc with h | h
        · exact Bool.or_eq_true_iff.mpr (Or.inl (by simp [h]))
        · exact Bool.or_eq_true_iff.mpr (Or.inr h)
    · simp [fmtEmit, hv, hkey, he]

theorem formatEnvelopeData_sources (context scope source : String)
    (items : List VariableRecord) (k : String) (e : EnvEntry)
    (h : (k, e) ∈ formatEnvelopeData context items scope source) :
    e.sources = [source] := by
  refine reduceAccum_forall (fmtEmit context source)
      (fun p => p.2.sources = [source]) ?_ _ (k, e) h
  intro x p hp
  simp only [fmtEmit, Option.map_eq_some'] at hp
  obtain ⟨v, _, hpair⟩ := hp
  rw [← hpair]
  rfl

/-! ### Characterisation of translateFromEnvelopeToMongo -/

theorem mongoEmit_eq_some_iff (r : VariableRecord) (k v : String) :
    mongoEmit r = some (k, v) ↔
      ∃ e, r.values.find?
          (fun val => val.context == "dev" || val.context == "all") = some e ∧
        e.value ≠ "" ∧ k = r.key ∧ v = e.value := by
  cases hf : r.values.find? (fun val => val.context == "dev" || val.context == "all") with
  | none => simp [mongoEmit, hf]
  | some e =>
    by_cases he : e.value = ""
    · simp [mongoEmit, hf, he]
    · simp only [mongoEmit, hf, if_pos he, Option.some.injEq, Prod.mk.injEq]
      constructor
      · rintro ⟨h1, h2⟩
        exact ⟨e, rfl, he, h1.symm, h2.symm⟩
      · rintro ⟨e2, he2, _, hk2, hval2⟩
        subst he2
        exact ⟨hk2.symm, hval2.symm⟩

theorem mongoEmit_key (x : VariableRecord) (p : String × String)
    (h : mongoEmit x = some p) : p.1 = x.key := by
  have h2 : mongoEmit x = some (p.1, p.2) := by rwa [Prod.mk.eta]
  obtain ⟨e, _, _, hk, _⟩ := (mongoEmit_eq_some_iff x p.1 p.2).mp h2
  exact hk

theorem translateFromEnvelopeToMongo_eq (envVars : List VariableRecord)
    (hk : (envVars.map VariableRecord.key).Nodup) :
    translateFromEnvelopeToMongo envVars =
      (jsSortRecords envVars).filterMap mongoEmit := by
  show reduceAccum mongoEmit (jsSortRecords envVars) = _
  apply reduceAccum_eq_filterMap
  have h1 := keys_filterMap_sublist mongoEmit VariableRecord.key mongoEmit_key
    (jsSortRecords envVars)
  have h2 : ((jsSortRecords envVars).map VariableRecord.key).Perm
      (envVars.map VariableRecord.key) :=
    (jsSortRecords_perm _).map _
  exact List.Sublist.nodup h1 (h2.symm.nodup hk)

theorem keysNodup_translateFromEnvelopeToMongo (envVars : List VariableRecord) :
    keysNodup (translateFromEnvelopeToMongo envVars) :=
  keysNodup_reduceAccum _ _

theorem translateFromEnvelopeToMongo_mem_iff (envVars : List VariableRecord)
    (hk : (envVars.map VariableRecord.key).Nodup) (k v : String) :
    lookupEnv (translateFromEnvelopeToMongo envVars) k = some v ↔
      ∃ r ∈ envVars, mongoEmit r = some (k, v) := by
  rw [lookupEnv_eq_some_iff (keysNodup_translateFromEnvelopeToMongo envVars),
    translateFromEnvelopeToMongo_eq envVars hk, List.mem_filterMap]
  constructor
  · rintro ⟨r, hr, h⟩
    exact ⟨r, mem_jsSortRecords.mp hr, h⟩
  · rintro ⟨r, hr, h⟩
    exact ⟨r, mem_jsSortRecords.mpr hr, h⟩

/-! ### Unfolding getEnvelopeEnv -/

theorem fetchEnvelopeItems_some_eq (acct : String) (api : ApiClient)
    (key : String) (siteId : Option String) :
    fetchEnvelopeItems (some acct) api key siteId =
      FetchResult.items (itemsOf (fetchEnvelopeItems (some acct) api key siteId)) := by
  simp only [fetchEnvelopeItems]
  split
  · cases api.getEnvVar acct key siteId <;> rfl
  · cases api.getEnvVars acct siteId <;> rfl

theorem getEnvelopeEnv_ok (api : ApiClient) (context : String) (env : Env)
    (key scope : String) (siteInfo : SiteInfo) (acct : String)
    (ha : siteInfo.account_slug = some acct) :
    getEnvelopeEnv api context env key scope siteInfo =
      Except.ok
        (spreadMerge
          (spreadMerge
            (spreadMerge
              (spreadMerge (filterEnvBySource env "general")
                (formatEnvelopeData context
                  (itemsOf (fetchEnvelopeItems (some acct) api key none)) scope "account"))
              (if configScopes.contains scope then filterEnvBySource env "addons" else []))
            (formatEnvelopeData context
              (itemsOf (fetchEnvelopeItems (some acct) api key siteInfo.id)) scope "ui"))
          (if configScopes.contains scope then filterEnvBySource env "configFile" else [])) := by
  obtain ⟨la, hla⟩ : ∃ l, fetchEnvelopeItems (some acct) api key none =
      FetchResult.items l :=
    ⟨_, fetchEnvelopeItems_some_eq acct api key none⟩
  obtain ⟨ls, hls⟩ : ∃ l, fetchEnvelopeItems (some acct) api key siteInfo.id =
      FetchResult.items l :=
    ⟨_, fetchEnvelopeItems_some_eq acct api key siteInfo.id⟩
  simp [getEnvelopeEnv, ha, hla, hls, formatEnvelopeDataJS, itemsOf, configScopes]

theorem keysNodup_filterEnvBySource {env : Env} (hn : keysNodup env) (s : String) :
    keysNodup (filterEnvBySource env s) := by
  have h : (envKeys (filterEnvBySource env s)).Sublist (envKeys env) :=
    (List.filter_sublist env).map _
  exact h.nodup hn

theorem merged_lookup (env : Env) (hn : keysNodup env) (accountEnv siteEnv : Env)
    (hacc : keysNodup accountEnv) (hsite : keysNodup siteEnv) (inc : Bool) (k : String) :
    lookupEnv (spreadMerge (spreadMerge (spreadMerge (spreadMerge
        (filterEnvBySource env "general") accountEnv)
        (if inc then filterEnvBySource env "addons" else []))
        siteEnv)
        (if inc then filterEnvBySource env "configFile" else [])) k =
      ((if inc then lookupEnv (filterEnvBySource env "configFile") k else none).or
        ((lookupEnv siteEnv k).or
          ((if inc then lookupEnv (filterEnvBySource env "addons") k else none).or
            ((lookupEnv accountEnv k).or
              (lookupEnv (filterEnvBySource env "general") k))))) := by
  cases inc
  · simp only [Bool.false_eq_true, if_false]
    rw [spreadMerge_nil, lookupEnv_spreadMerge _ _ _ hsite, spreadMerge_nil,
      lookupEnv_spreadMerge _ _ _ hacc]
    simp [Option.none_or]
  · simp only [if_true]
    rw [lookupEnv_spreadMerge _ _ _ (keysNodup_filterEnvBySource hn "configFile"),
      lookupEnv_spreadMerge _ _ _ hsite,
      lookupEnv_spreadMerge _ _ _ (keysNodup_filterEnvBySource hn "addons"),
      lookupEnv_spreadMerge _ _ _ hacc]

theorem merged_mem_keys (env : Env) (accountEnv siteEnv : Env) (inc : Bool)
    (k : String) :
    k ∈ envKeys (spreadMerge (spreadMerge (spreadMerge (spreadMerge
        (filterEnvBySource env "general") accountEnv)
        (if inc then filterEnvBySource env "addons" else []))
        siteEnv)
        (if inc then filterEnvBySource env "configFile" else [])) ↔
      (k ∈ envKeys (filterEnvBySource env "general") ∨
        k ∈ envKeys accountEnv ∨
        (inc = true ∧ k ∈ envKeys (filterEnvBySource env "addons")) ∨
        k ∈ envKeys siteEnv ∨
        (inc = true ∧ k ∈ envKeys (filterEnvBySource env "configFile"))) := by
  cases inc
  · simp only [mem_envKeys_spreadMerge, Bool.false_eq_true, if_false]
    simp only [envKeys, List.map_nil, List.not_mem_nil, or_false, false_and]
    tauto
  · simp only [mem_envKeys_spreadMerge, if_true, true_and]
    tauto

theorem charsLt_irrefl : ∀ x : List Char, charsLt x x = false
  | [] => rfl
  | a :: as => by
    simp [charsLt, charsLt_irrefl as]

/-! ### Claim theorems -/

/-- C1: for every flat env, context, scope and site info (with an account
identifier present), `getEnvelopeEnv` merges the per-source mappings in
ascending precedence order general, account, [addons if included], site/UI,
[configFile if included]: each key resolves to the entire entry of the
highest-precedence source holding it, and the key set of the result is the
union of the included sources' key sets. -/
theorem getEnvelopeEnv_merge_precedence (api : ApiClient) (context : String)
    (env : Env) (key scope : String) (siteInfo : SiteInfo) (acct : String)
    (ha : siteInfo.account_slug = some acct) (hn : keysNodup env) :
    ∃ m, getEnvelopeEnv api context env key scope siteInfo = Except.ok m ∧
      (∀ k,
        lookupEnv m k =
          ((if configScopes.contains scope
              then lookupEnv (filterEnvBySource env "configFile") k else none).or
            ((lookupEnv (formatEnvelopeData context
                (itemsOf (fetchEnvelopeItems (some acct) api key siteInfo.id))
                scope "ui") k).or
              ((if configScopes.contains scope
                  then lookupEnv (filterEnvBySource env "addons") k else none).or
                ((lookupEnv (formatEnvelopeData context
                    (itemsOf (fetchEnvelopeItems (some acct) api key none))
                    scope "account") k).or
                  (lookupEnv (filterEnvBySource env "general") k)))))) ∧
      (∀ k,
        k ∈ envKeys m ↔
          (k ∈ envKeys (filterEnvBySource env "general") ∨
            k ∈ envKeys (formatEnvelopeData context
              (itemsOf (fetchEnvelopeItems (some acct) api key none))
              scope "account") ∨
            (configScopes.contains scope = true ∧
              k ∈ envKeys (filterEnvBySource env "addons")) ∨
            k ∈ envKeys (formatEnvelopeData context
              (itemsOf (fetchEnvelopeItems (some acct) api key siteInfo.id))
              scope "ui") ∨
            (configScopes.contains scope = true ∧
              k ∈ envKeys (filterEnvBySource env "configFile")))) := by
  refine ⟨_, getEnvelopeEnv_ok api context env key scope siteInfo acct ha, ?_, ?_⟩
  · intro k
    exact merged_lookup env hn _ _ (keysNodup_formatEnvelopeData _ _ _ _)
      (keysNodup_formatEnvelopeData _ _ _ _) _ k
  · intro k
    exact merged_mem_keys env _ _ _ k

/-- C1 witness: the spec's example general `A:1`, account `A:2`, site `A:3`
resolves to the site entry `A:3`. -/
theorem getEnvelopeEnv_merge_precedence_witness :
    (siteDemo.account_slug = some "acct" ∧ keysNodup envDemo) ∧
    ∃ m, getEnvelopeEnv apiDemo "dev" envDemo "" "any" siteDemo = Except.ok m ∧
      lookupEnv m "A" = some
        { context := some "all",
          scopes := some ["builds", "functions", "runtime", "post_processing"],
          sources := ["ui"], value := some "3" } := by
  refine ⟨⟨rfl, by decide⟩, ?_⟩
  obtain ⟨m, hm, hlook, _⟩ :=
    getEnvelopeEnv_merge_precedence apiDemo "dev" envDemo "" "any" siteDemo "acct"
      rfl (by decide)
  refine ⟨m, hm, ?_⟩
  rw [hlook "A"]
  decide

/-- C2: addons- and configFile-sourced entries are included exactly for the
scopes `any`, `builds`, `post_processing`; for any other requested scope
(such as `functions` or `runtime`) no entry of the result has first source
`addons` or `configFile`, even when the input env has such entries. -/
theorem getEnvelopeEnv_scope_inclusion (api : ApiClient) (context : String)
    (env : Env) (key scope : String) (siteInfo : SiteInfo) (acct : String)
    (ha : siteInfo.account_slug = some acct) (hn : keysNodup env) :
    ∃ m, getEnvelopeEnv api context env key scope siteInfo = Except.ok m ∧
      (configScopes.contains scope = false →
        ∀ k e, lookupEnv m k = some e →
          e.sources.head? ≠ some "addons" ∧ e.sources.head? ≠ some "configFile") ∧
      (configScopes.contains scope = true →
        (∀ k e, lookupEnv (filterEnvBySource env "configFile") k = some e →
          lookupEnv m k = some e) ∧
        (∀ k, k ∈ envKeys (filterEnvBySource env "addons") → k ∈ envKeys m) ∧
        (∀ k e, lookupEnv (filterEnvBySource env "addons") k = some e →
          lookupEnv (formatEnvelopeData context
            (itemsOf (fetchEnvelopeItems (some acct) api key siteInfo.id))
            scope "ui") k = none →
          lookupEnv (filterEnvBySource env "configFile") k = none →
          lookupEnv m k = some e)) := by
  obtain ⟨m, hm, hlook, hmem⟩ :=
    getEnvelopeEnv_merge_precedence api context env key scope siteInfo acct ha hn
  refine ⟨m, hm, ?_, ?_⟩
  · intro hinc k e hke
    rw [hlook k, hinc] at hke
    simp only [Bool.false_eq_true, if_false, Option.none_or] at hke
    cases hs : lookupEnv (formatEnvelopeData context
        (itemsOf (fetchEnvelopeItems (some acct) api key siteInfo.id))
        scope "ui") k with
    | some es =>
      rw [hs] at hke
      simp only [Option.or] at hke
      injection hke with hke
      have hsrc := formatEnvelopeData_sources context scope "ui" _ k es (lookupEnv_mem hs)
      rw [← hke, hsrc]
      exact ⟨by simp, by simp⟩
    | none =>
      rw [hs, Option.none_or] at hke
      cases hacc : lookupEnv (formatEnvelopeData context
          (itemsOf (fetchEnvelopeItems (some acct) api key none))
          scope "account") k with
      | some ea =>
        rw [hacc] at hke
        simp only [Option.or] at hke
        injection hke with hke
        have hsrc := formatEnvelopeData_sources context scope "account" _ k ea
          (lookupEnv_mem hacc)
        rw [← hke, hsrc]
        exact ⟨by simp, by simp⟩
      | none =>
        rw [hacc, Option.none_or] at hke
        have hg := lookupEnv_mem hke
        have := (List.mem_filter.mp hg).2
        have hgen : e.sources.head? = some "general" := by simpa using this
        rw [hgen]
        exact ⟨by simp, by simp⟩
  · intro hinc
    refine ⟨?_, ?_, ?_⟩
    · intro k e hke
      rw [hlook k, hinc]
      simp only [if_true, hke, Option.or]
    · intro k hk
      exact (hmem k).mpr (Or.inr (Or.inr (Or.inl ⟨hinc, hk⟩)))
    · intro k e hke hsite hcfg
      rw [hlook k, hinc]
      simp only [if_true, hke, hsite, hcfg, Option.none_or, Option.or]

/-- C2 witness: with scope `functions` the addons/configFile entries of the
input env never surface in the result. -/
theorem getEnvelopeEnv_scope_inclusion_witness :
    (siteDemo.account_slug = some "acct" ∧ keysNodup envDemo10 ∧
      configScopes.contains "functions" = false) ∧
    ∃ m, getEnvelopeEnv apiFail "dev" envDemo10 "" "functions" siteDemo =
        Except.ok m ∧
      ∀ k e, lookupEnv m k = some e →
        e.sources.head? ≠ some "addons" ∧ e.sources.head? ≠ some "configFile" := by
  refine ⟨⟨rfl, by decide, by decide⟩, ?_⟩
  obtain ⟨m, hm, hexc, _⟩ :=
    getEnvelopeEnv_scope_inclusion apiFail "dev" envDemo10 "" "functions" siteDemo
      "acct" rfl (by decide)
  exact ⟨m, hm, hexc (by decide)⟩

/-- C3: with no account identifier the fetcher returns the empty result
without consulting the api; when the api rejects, the fetcher returns an
empty array, indistinguishable from an api that returned no variables. -/
theorem fetchEnvelopeItems_error_handling :
    (∀ (api : ApiClient) (key : String) (siteId : Option String),
      fetchEnvelopeItems none api key siteId = FetchResult.emptyObject) ∧
    (∀ (acct : String) (api : ApiClient) (key : String) (siteId : Option String),
      key ≠ "" → api.getEnvVar acct key siteId = Except.error () →
      fetchEnvelopeItems (some acct) api key siteId = FetchResult.items []) ∧
    (∀ (acct : String) (api : ApiClient) (siteId : Option String),
      api.getEnvVars acct siteId = Except.error () →
      fetchEnvelopeItems (some acct) api "" siteId = FetchResult.items []) ∧
    (∀ (acct : String) (apiA apiB : ApiClient) (siteId : Option String),
      apiA.getEnvVars acct siteId = Except.error () →
      apiB.getEnvVars acct siteId = Except.ok [] →
      fetchEnvelopeItems (some acct) apiA "" siteId =
        fetchEnvelopeItems (some acct) apiB "" siteId) := by
  refine ⟨fun api key siteId => rfl, ?_, ?_, ?_⟩
  · intro acct api key siteId hk herr
    simp [fetchEnvelopeItems, hk, herr]
  · intro acct api siteId herr
    simp [fetchEnvelopeItems, herr]
  · intro acct apiA apiB siteId herrA hokB
    simp [fetchEnvelopeItems, herrA, hokB]

/-- C3 witness: a rejecting api yields an empty array; a missing account
yields the empty object. -/
theorem fetchEnvelopeItems_error_handling_witness :
    ("k" ≠ "" ∧ apiFail.getEnvVar "a" "k" none = Except.error ()) ∧
    fetchEnvelopeItems none apiFail "k" none = FetchResult.emptyObject ∧
    fetchEnvelopeItems (some "a") apiFail "k" none = FetchResult.items [] :=
  ⟨⟨by decide, rfl⟩,
    fetchEnvelopeItems_error_handling.1 apiFail "k" none,
    fetchEnvelopeItems_error_handling.2.1 "a" apiFail "k" none (by decide) rfl⟩

/-- C9: with no account identifier the fetcher returns the bare object `{}`
rather than an array, and `getEnvelopeEnv` does not fall back to the local
env: formatting the object raises a type fault that propagates. -/
theorem getEnvelopeEnv_no_account_fault (api : ApiClient) (context : String)
    (env : Env) (key scope : String) (siteInfo : SiteInfo)
    (ha : siteInfo.account_slug = none) :
    fetchEnvelopeItems siteInfo.account_slug api key siteInfo.id =
      FetchResult.emptyObject ∧
    getEnvelopeEnv api context env key scope siteInfo = Except.error () := by
  constructor
  · rw [ha]
    rfl
  · simp [getEnvelopeEnv, ha, fetchEnvelopeItems, formatEnvelopeDataJS]

/-- C9 witness at a concrete site with no account slug. -/
theorem getEnvelopeEnv_no_account_fault_witness :
    siteNoAcct.account_slug = none ∧
    (fetchEnvelopeItems siteNoAcct.account_slug apiFail "" siteNoAcct.id =
        FetchResult.emptyObject ∧
      getEnvelopeEnv apiFail "dev" envDemo "" "any" siteNoAcct =
        Except.error ()) :=
  ⟨rfl, getEnvelopeEnv_no_account_fault apiFail "dev" envDemo "" "any" siteNoAcct rfl⟩

theorem filter_jsSortRecords (p : VariableRecord → Bool)
    (h : ∀ a b, p a = true → p b = true → recLe a b) (l : List VariableRecord) :
    (jsSortRecords l).filter p = l.filter p :=
  filter_insertionSort recLe p h l

/-- C4: the formatter keeps exactly the records with a value for the
requested context whose scopes admit the requested scope, emits for each the
entry `{context, scopes, sources ;= [source], value}` resolved by the first
matching value entry, and its output iterates in case-insensitive ascending
key order with ties kept in input order (stable). -/
theorem formatEnvelopeData_spec (context scope source : String)
    (items : List VariableRecord)
    (hk : (items.map VariableRecord.key).Nodup) :
    (∀ k e,
      lookupEnv (formatEnvelopeData context items scope source) k = some e ↔
        ∃ r ∈ items, r.key = k ∧
          (scope = "any" ∨ r.scopes.contains scope = true) ∧
          ∃ v, findValueFromContext r.values context = some v ∧
            e = formatEntry source r v) ∧
    (envKeys (formatEnvelopeData context items scope source)).Pairwise
      (fun a b => charsLe (lowerChars a) (lowerChars b)) ∧
    (∀ K : List Char,
      (envKeys (formatEnvelopeData context items scope source)).filter
          (fun k => lowerChars k == K) =
        (((items.filter
              (fun r => (findValueFromContext r.values context).isSome)).filter
            (fun r => scope == "any" || r.scopes.contains scope)).map
              VariableRecord.key).filter (fun k => lowerChars k == K)) := by
  refine ⟨formatEnvelopeData_mem_iff context scope source items hk, ?_, ?_⟩
  · rw [formatEnvelopeData_keys context scope source items hk]
    exact pairwise_keys_of_sorted (jsSortRecords_sorted _)
  · intro K
    rw [formatEnvelopeData_keys context scope source items hk,
      List.filter_map, List.filter_map]
    refine congrArg (List.map VariableRecord.key) (filter_jsSortRecords _ ?_ _)
    intro a b hpa hpb
    have ha2 : lowerChars a.key = K := by simpa using hpa
    have hb2 : lowerChars b.key = K := by simpa using hpb
    show charsLt (lowerChars b.key) (lowerChars a.key) = false
    rw [ha2, hb2, charsLt_irrefl]

/-- C4 witness: keys banana, Apple come out as Apple, banana. -/
theorem formatEnvelopeData_spec_witness :
    (demoItems.map VariableRecord.key).Nodup ∧
    (envKeys (formatEnvelopeData "dev" demoItems "any" "ui")).Pairwise
      (fun a b => charsLe (lowerChars a) (lowerChars b)) ∧
    envKeys (formatEnvelopeData "dev" demoItems "any" "ui") = ["Apple", "banana"] :=
  ⟨by decide, (formatEnvelopeData_spec "dev" "any" "ui" demoItems (by decide)).2.1,
    by decide⟩

/-- C5: translating a flat env with truthy values to the multi-context shape
and back returns the same mapping (same lookups, same entries up to the
sorted iteration order). -/
theorem translate_roundtrip (env : List (String × String))
    (hk : (env.map Prod.fst).Nodup) (hv : ∀ p ∈ env, p.2 ≠ "") :
    (∀ k, lookupEnv
        (translateFromEnvelopeToMongo (translateFromMongoToEnvelope env)) k =
      lookupEnv env k) ∧
    (translateFromEnvelopeToMongo (translateFromMongoToEnvelope env)).Perm env := by
  have hkeys : (translateFromMongoToEnvelope env).map VariableRecord.key =
      env.map Prod.fst := by
    simp [translateFromMongoToEnvelope, List.map_map]
  have hk2 : ((translateFromMongoToEnvelope env).map VariableRecord.key).Nodup := by
    rw [hkeys]
    exact hk
  have hemit : ∀ p ∈ env, mongoEmit
      ({ key := p.1,
         scopes := ["builds", "functions", "runtime", "post_processing"],
         values := [{ context := "all", value := p.2 }] } : VariableRecord) =
        some p := by
    intro p hp
    have hval : p.2 ≠ "" := hv p hp
    show (if p.2 ≠ "" then some (p.1, p.2) else none) = some p
    rw [if_pos hval, Prod.mk.eta]
  have hfm : (translateFromMongoToEnvelope env).filterMap mongoEmit = env := by
    unfold translateFromMongoToEnvelope
    rw [List.filterMap_map]
    exact filterMap_congr_some _ env (fun p hp => hemit p hp)
  have hPerm :
      (translateFromEnvelopeToMongo (translateFromMongoToEnvelope env)).Perm env := by
    rw [translateFromEnvelopeToMongo_eq _ hk2]
    have h1 : ((jsSortRecords (translateFromMongoToEnvelope env)).filterMap
          mongoEmit).Perm ((translateFromMongoToEnvelope env).filterMap mongoEmit) :=
      List.Perm.filterMap mongoEmit (jsSortRecords_perm _)
    rw [hfm] at h1
    exact h1
  refine ⟨?_, hPerm⟩
  intro k
  cases hl : lookupEnv env k with
  | some v =>
    have hmem : (k, v) ∈ env := lookupEnv_mem hl
    exact (lookupEnv_eq_some_iff
      (keysNodup_translateFromEnvelopeToMongo _)).mpr (hPerm.mem_iff.mpr hmem)
  | none =>
    have hnot : k ∉ envKeys env := lookupEnv_eq_none_iff.mp hl
    apply lookupEnv_eq_none_iff.mpr
    intro hkmem
    apply hnot
    obtain ⟨v, hvv⟩ := mem_envKeys.mp hkmem
    exact mem_envKeys_of_mem (hPerm.mem_iff.mp hvv)

/-- C5 witness: the spec's `{FOO: bar}` example round-trips exactly. -/
theorem translate_roundtrip_witness :
    ((mongoDemo.map Prod.fst).Nodup ∧ ∀ p ∈ mongoDemo, p.2 ≠ "") ∧
    (∀ k, lookupEnv
        (translateFromEnvelopeToMongo (translateFromMongoToEnvelope mongoDemo)) k =
      lookupEnv mongoDemo k) ∧
    translateFromEnvelopeToMongo (translateFromMongoToEnvelope mongoDemo) =
      mongoDemo :=
  ⟨⟨by decide, by decide⟩,
    (translate_roundtrip mongoDemo (by decide) (by decide)).1, by decide⟩

/-- C6: the multi-to-flat translator emits a key exactly when the record's
first dev/all value exists and is truthy, mapping the key to that value, and
emits keys in case-insensitive ascending order. -/
theorem translateFromEnvelopeToMongo_spec (envVars : List VariableRecord)
    (hk : (envVars.map VariableRecord.key).Nodup) :
    (∀ k v, lookupEnv (translateFromEnvelopeToMongo envVars) k = some v ↔
      ∃ r ∈ envVars, r.key = k ∧
        ∃ e, r.values.find?
            (fun val => val.context == "dev" || val.context == "all") = some e ∧
          e.value ≠ "" ∧ v = e.value) ∧
    (envKeys (translateFromEnvelopeToMongo envVars)).Pairwise
      (fun a b => charsLe (lowerChars a) (lowerChars b)) := by
  constructor
  · intro k v
    rw [translateFromEnvelopeToMongo_mem_iff envVars hk k v]
    constructor
    · rintro ⟨r, hr, hemit⟩
      obtain ⟨e, hfind, hval, hkk, hvv⟩ := (mongoEmit_eq_some_iff r k v).mp hemit
      exact ⟨r, hr, hkk.symm, e, hfind, hval, hvv⟩
    · rintro ⟨r, hr, hkk, e, hfind, hval, hvv⟩
      exact ⟨r, hr, (mongoEmit_eq_some_iff r k v).mpr ⟨e, hfind, hval, hkk.symm, hvv⟩⟩
  · rw [translateFromEnvelopeToMongo_eq envVars hk]
    exact List.Pairwise.sublist
      (keys_filterMap_sublist mongoEmit VariableRecord.key mongoEmit_key
        (jsSortRecords envVars))
      (pairwise_keys_of_sorted (jsSortRecords_sorted _))

/-- C6 witness on the banana/Apple records. -/
theorem translateFromEnvelopeToMongo_spec_witness :
    (demoItems.map VariableRecord.key).Nodup ∧
    (envKeys (translateFromEnvelopeToMongo demoItems)).Pairwise
      (fun a b => charsLe (lowerChars a) (lowerChars b)) ∧
    translateFromEnvelopeToMongo demoItems = [("Apple", "a"), ("banana", "b")] :=
  ⟨by decide, (translateFromEnvelopeToMongo_spec demoItems (by decide)).2, by decide⟩

/-- C7 counterexample: the multi-to-flat translator does mutate its input:
`envVars.sort(...)` reorders the caller's array in place, so after the call
an out-of-order argument is left reordered. -/
theorem translateFromEnvelopeToMongo_mutates_input :
    ¬ (translateFromEnvelopeToMongoM [recB, recA]).1 = [recB, recA] := by decide

/-- C7 amended: the source filter and the formatter leave their arguments
unchanged; the multi-to-flat translator returns a fresh mapping but leaves
its argument array sorted in place (a permutation of the original, sorted by
lowercased key, in general a different order). -/
theorem coreOps_argument_state :
    (∀ context items scope source,
      (formatEnvelopeDataM context items scope source).1 = items) ∧
    (∀ env source, (filterEnvBySourceM env source).1 = env) ∧
    (∀ envVars, (translateFromEnvelopeToMongoM envVars).1 = jsSortRecords envVars ∧
      ((translateFromEnvelopeToMongoM envVars).1).Perm envVars ∧
      List.Sorted recLe (translateFromEnvelopeToMongoM envVars).1) :=
  ⟨fun _ _ _ _ => rfl, fun _ _ => rfl,
    fun envVars => ⟨rfl, jsSortRecords_perm envVars, jsSortRecords_sorted envVars⟩⟩

/-- C8 counterexample: the flat-env source enum has five tags; whichever tag
is dropped, the union of the filter over the remaining four tags misses an
entry of the single-source env `env5`, so no four tags partition it. -/
theorem filterEnvBySource_four_tags_insufficient :
    (SOURCE_TAGS.all fun t =>
      !(env5.all fun p =>
        (SOURCE_TAGS.erase t).any fun s =>
          (filterEnvBySource env5 s).contains p)) = true := by decide

/-- C8 amended: the source filter returns exactly the entries whose first
listed source equals the tag, and the union over all FIVE source tags
(general, account, addons, ui, configFile) partitions any env of
single-source entries drawn from the enum: each entry lands in exactly one
part. -/
theorem filterEnvBySource_exact_partition (env : Env) :
    (∀ s k e, (k, e) ∈ filterEnvBySource env s ↔
      (k, e) ∈ env ∧ e.sources.head? = some s) ∧
    (∀ p ∈ env, (∃ t ∈ SOURCE_TAGS, p.2.sources = [t]) →
      ∃! s, s ∈ SOURCE_TAGS ∧ p ∈ filterEnvBySource env s) := by
  constructor
  · intro s k e
    simp [filterEnvBySource, List.mem_filter]
  · rintro p hp ⟨t, htags, hsrc⟩
    refine ⟨t, ⟨htags, List.mem_filter.mpr ⟨hp, by simp [hsrc]⟩⟩, ?_⟩
    rintro s ⟨_, hmem⟩
    have h := (List.mem_filter.mp hmem).2
    rw [hsrc] at h
    have : some t = some s := by simpa using h
    injection this with h2
    exact h2.symm

/-- C8 witness: the general-sourced entry of `env5` lies in exactly one of
the five parts. -/
theorem filterEnvBySource_exact_partition_witness :
    (("V1", ({ sources := ["general"] } : EnvEntry)) ∈ env5 ∧
      (∃ t ∈ SOURCE_TAGS,
        ({ sources := ["general"] } : EnvEntry).sources = [t])) ∧
    ∃! s, s ∈ SOURCE_TAGS ∧
      ("V1", ({ sources := ["general"] } : EnvEntry)) ∈ filterEnvBySource env5 s :=
  ⟨⟨by decide, ⟨"general", by decide, rfl⟩⟩,
    (filterEnvBySource_exact_partition env5).2 _ (by decide)
      ⟨"general", by decide, rfl⟩⟩

/-- C10: a non-empty single-key filter restricts only the remote fetches:
entries of the local env sourced from general, addons or configFile keep
their key in the result whatever the requested key is, and a
configFile-sourced entry is returned verbatim. -/
theorem getEnvelopeEnv_key_filters_remote_only (api : ApiClient)
    (context : String) (env : Env) (key scope : String) (siteInfo : SiteInfo)
    (acct : String) (n : String) (e : EnvEntry)
    (ha : siteInfo.account_slug = some acct) (hn : keysNodup env)
    (hscope : configScopes.contains scope = true)
    (hmem : (n, e) ∈ env)
    (hsrc : e.sources.head? = some "general" ∨ e.sources.head? = some "addons" ∨
      e.sources.head? = some "configFile") :
    ∃ m, getEnvelopeEnv api context env key scope siteInfo = Except.ok m ∧
      n ∈ envKeys m ∧
      (e.sources.head? = some "configFile" → lookupEnv m n = some e) := by
  obtain ⟨m, hm, hlook, hkeys⟩ :=
    getEnvelopeEnv_merge_precedence api context env key scope siteInfo acct ha hn
  refine ⟨m, hm, ?_, ?_⟩
  · apply (hkeys n).mpr
    rcases hsrc with h | h | h
    · exact Or.inl
        (mem_envKeys_of_mem (List.mem_filter.mpr ⟨hmem, by simp [h]⟩))
    · exact Or.inr (Or.inr (Or.inl ⟨hscope,
        mem_envKeys_of_mem (List.mem_filter.mpr ⟨hmem, by simp [h]⟩)⟩))
    · exact Or.inr (Or.inr (Or.inr (Or.inr ⟨hscope,
        mem_envKeys_of_mem (List.mem_filter.mpr ⟨hmem, by simp [h]⟩)⟩)))
  · intro hcf
    rw [hlook n, hscope]
    have hcfl : lookupEnv (filterEnvBySource env "configFile") n = some e :=
      (lookupEnv_eq_some_iff (keysNodup_filterEnvBySource hn _)).mpr
        (List.mem_filter.mpr ⟨hmem, by simp [hcf]⟩)
    simp only [if_true, hcfl, Option.or]

/-- C10 witness: requesting key `A` does not drop the local entries `X`
(general) and `Z` (configFile). -/
theorem getEnvelopeEnv_key_filters_remote_only_witness :
    (siteDemo.account_slug = some "acct" ∧ keysNodup envDemo10 ∧
      configScopes.contains "any" = true ∧
      ("Z", ({ sources := ["configFile"], value := some "z" } : EnvEntry)) ∈
        envDemo10) ∧
    ∃ m, getEnvelopeEnv apiFail "dev" envDemo10 "A" "any" siteDemo = Except.ok m ∧
      "Z" ∈ envKeys m ∧
      (({ sources := ["configFile"], value := some "z" } : EnvEntry).sources.head? =
          some "configFile" →
        lookupEnv m "Z" =
          some { sources := ["configFile"], value := some "z" }) :=
  ⟨⟨rfl, by decide, by decide, by decide⟩,
    getEnvelopeEnv_key_filters_remote_only apiFail "dev" envDemo10 "A" "any"
      siteDemo "acct" "Z" { sources := ["configFile"], value := some "z" }
      rfl (by decide) (by decide) (by decide) (Or.inr (Or.inr rfl))⟩
